import Mathlib

/-
Verification of the foreign-memory bridging layer of a keychain-services
binding (src/ffi.rs): the four-character identifier codec and the
foreign attribute list view. Machine integers are modelled as Nat with
explicit bounds (u32 as Fin 4294967296, u8 values reduced mod 256);
raw pointers are modelled as Nat addresses with 0 as the null marker,
and foreign memory as a partial map from addresses to values, so that a
read outside the mapped region is an explicit fault (Option.none).
Rust string slices are modelled by their UTF-8 byte content, and a
panicking operation (assert, unwrap) is modelled as returning none.
-/

namespace KeychainFFI

/-- Four character codes used as identifiers. Models the source type
FourCharacterCode, a repr(transparent) wrapper around a u32, deriving
Copy, Clone, Eq, Hash, PartialEq, PartialOrd, Ord. -/
structure FourCharacterCode where
  val : Fin 4294967296
deriving DecidableEq

/-- Byte view of the wrapped 32-bit integer. Models as_bytes, which
reinterprets the u32 storage as a 4-byte array: on the little-endian
targets of this crate the first byte is the least significant. -/
def FourCharacterCode.as_bytes (c : FourCharacterCode) : List Nat :=
  [c.val.val % 256, c.val.val / 256 % 256,
   c.val.val / 65536 % 256, c.val.val / 16777216 % 256]

/-- Continuation byte test for UTF-8 validation: bytes 0x80 to 0xBF. -/
def isUtf8Cont (b : Nat) : Bool :=
  128 ≤ b && b < 192

/-- State machine scan for UTF-8 validation: the state is the number of
continuation bytes still expected together with the admissible range
(inclusive low, exclusive high) for the next byte. A start byte
installs the range constraints of the encoding it opens (rejecting
overlong forms, surrogates and values above 0x10FFFF), and every later
continuation byte must lie in 0x80 to 0xBF. -/
def utf8Scan : Nat × Nat × Nat → List Nat → Bool
  | (0, _, _), [] => true
  | (0, _, _), b0 :: rest =>
    if b0 < 128 then utf8Scan (0, 0, 0) rest
    else if b0 < 194 then false
    else if b0 < 224 then utf8Scan (1, 128, 192) rest
    else if b0 = 224 then utf8Scan (2, 160, 192) rest
    else if b0 < 237 then utf8Scan (2, 128, 192) rest
    else if b0 = 237 then utf8Scan (2, 128, 160) rest
    else if b0 < 240 then utf8Scan (2, 128, 192) rest
    else if b0 = 240 then utf8Scan (3, 144, 192) rest
    else if b0 < 244 then utf8Scan (3, 128, 192) rest
    else if b0 = 244 then utf8Scan (3, 128, 144) rest
    else false
  | (_ + 1, _, _), [] => false
  | (k + 1, lo, hi), b :: rest =>
    (lo ≤ b && b < hi) && utf8Scan (k, 128, 192) rest

/-- UTF-8 validity of a byte sequence, as checked by str from_utf8. -/
def validUtf8 (bs : List Nat) : Bool :=
  utf8Scan (0, 0, 0) bs

/-- Models as_str: str from_utf8 over the 4-byte view, followed by
unwrap. A Rust str is identified with its UTF-8 byte content (the view
is zero copy), and the unwrap panic on invalid UTF-8 is none. -/
def FourCharacterCode.as_str (c : FourCharacterCode) : Option (List Nat) :=
  if validUtf8 c.as_bytes then some c.as_bytes else none

/-- Models the From u32 conversion: FourCharacterCode(num), storing the
integer unchanged. -/
def FourCharacterCode.fromU32 (n : Nat) : FourCharacterCode :=
  ⟨⟨n % 4294967296, Nat.mod_lt _ (by norm_num)⟩⟩

/-- Models the From byte-array conversion: ptr copy_nonoverlapping of
the 4 bytes into the u32 storage, preserving byte order, which on the
little-endian targets of this crate makes the first byte least
significant. Each argument is a u8 value, reduced mod 256. -/
def FourCharacterCode.fromBytes (b0 b1 b2 b3 : Nat) : FourCharacterCode :=
  ⟨⟨b0 % 256 + 256 * (b1 % 256) + 65536 * (b2 % 256) + 16777216 * (b3 % 256),
    by omega⟩⟩

/-- Models the From CFString conversion. The foreign string is given by
its decoded byte content (Cow from the CFString, then as_bytes); the
source asserts that this has length exactly 4 (a panic, modelled as
none) and otherwise copies the 4 bytes via the byte-array conversion. -/
def FourCharacterCode.fromCFString (s : List Nat) : Option FourCharacterCode :=
  match s with
  | [b0, b1, b2, b3] => some (FourCharacterCode.fromBytes b0 b1 b2 b3)
  | _ => none

/-- Reconstructs the u32 from its little-endian byte view; used to state
the integer round trip. -/
def u32OfLEBytes : List Nat → Nat
  | [b0, b1, b2, b3] => b0 + 256 * b1 + 65536 * b2 + 16777216 * b3
  | _ => 0

/-- Models the derived ordering on FourCharacterCode, which compares the
wrapped u32 values numerically. -/
def FourCharacterCode.le (a b : FourCharacterCode) : Prop :=
  a.val.val ≤ b.val.val

instance : DecidablePred fun p : FourCharacterCode × FourCharacterCode =>
    FourCharacterCode.le p.1 p.2 :=
  fun p => inferInstanceAs (Decidable (p.1.val.val ≤ p.2.val.val))

instance (a b : FourCharacterCode) : Decidable (FourCharacterCode.le a b) :=
  inferInstanceAs (Decidable (a.val.val ≤ b.val.val))

/-- Models the derived Hash instance: the data fed to the hasher is the
wrapped u32 value, so the hash is a function of it. -/
def FourCharacterCode.hashData (c : FourCharacterCode) : Nat :=
  c.val.val

/-- UTF-8 encoding of one scalar value, used to relate Lean string
literals to Rust byte content in the scenario claims. -/
def charUtf8 (n : Nat) : List Nat :=
  if n < 128 then [n]
  else if n < 2048 then [192 + n / 64, 128 + n % 64]
  else if n < 65536 then [224 + n / 4096, 128 + n / 64 % 64, 128 + n % 64]
  else [240 + n / 262144, 128 + n / 4096 % 64, 128 + n / 64 % 64, 128 + n % 64]

/-- UTF-8 byte content of a Lean string. -/
def strUtf8 (s : String) : List Nat :=
  s.data.foldr (fun c acc => charUtf8 c.toNat ++ acc) []

/-- Models the Debug formatting of a FourCharacterCode, which writes
FourCharacterCode( then the as_str view then ), and therefore panics
(none) exactly when as_str does. The output is its UTF-8 byte
content. -/
def FourCharacterCode.fmtDebug (c : FourCharacterCode) : Option (List Nat) :=
  (c.as_str).map fun s => strUtf8 "FourCharacterCode(" ++ s ++ strUtf8 ")"

/-- Byte-addressed foreign memory: none at an address means reading it
faults (the address is not part of a live foreign allocation). -/
def Mem : Type :=
  Nat → Option Nat

/-- Reads n consecutive bytes starting at addr, faulting (none) if any
address is unmapped. Models the validity requirement of
slice from_raw_parts over attribute payload bytes. -/
def readBytes (m : Mem) : Nat → Nat → Option (List Nat)
  | _, 0 => some []
  | addr, n + 1 =>
    match m addr, readBytes m (addr + 1) n with
    | some b, some rest => some (b :: rest)
    | _, _ => none

/-- Individual keychain attribute. Models the repr(C) struct
SecKeychainAttribute: tag, length (u32) and data pointer, with the
pointer modelled as a Nat address and 0 as the null marker. -/
structure SecKeychainAttribute where
  tag : FourCharacterCode
  length : Nat
  data : Nat
deriving DecidableEq

/-- Models the data accessor: None when the data pointer is null,
otherwise Some of the slice of exactly length bytes at the data
address. The outer Option is the fault layer of the memory model: the
null branch never touches memory, the non-null branch faults when the
address/length pair is not backed by live memory. -/
def SecKeychainAttribute.getData (a : SecKeychainAttribute) (m : Mem) :
    Option (Option (List Nat)) :=
  if a.data = 0 then some none
  else (readBytes m a.data a.length).map some

/-- Models the tag accessor, which returns the tag field. -/
def SecKeychainAttribute.getTag (a : SecKeychainAttribute) : FourCharacterCode :=
  a.tag

/-- Record-addressed foreign memory holding the contiguous attribute
array: addresses index whole records, reflecting that
slice from_raw_parts over SecKeychainAttribute advances element-wise. -/
def AttrMem : Type :=
  Nat → Option SecKeychainAttribute

/-- Reads n consecutive attribute records starting at addr, faulting if
any is unmapped. -/
def readAttrs (rm : AttrMem) : Nat → Nat → Option (List SecKeychainAttribute)
  | _, 0 => some []
  | addr, n + 1 =>
    match rm addr, readAttrs rm (addr + 1) n with
    | some a, some rest => some (a :: rest)
    | _, _ => none

/-- List of attributes. Models the repr(C) struct
SecKeychainAttributeList: count (u32) and pointer to the first
record. -/
structure SecKeychainAttributeList where
  count : Nat
  attr : Nat

/-- Models as_slice: slice from_raw_parts of count records starting at
the attr pointer. A count of 0 reads nothing and yields the empty
slice; a positive count faults unless all count records are backed by
live memory. -/
def SecKeychainAttributeList.as_slice (l : SecKeychainAttributeList)
    (rm : AttrMem) : Option (List SecKeychainAttribute) :=
  readAttrs rm l.attr l.count

/-- Slice iterator state: the underlying elements plus a position
cursor, the only state a slice Iter carries. -/
structure SliceIter (α : Type) where
  elems : List α
  pos : Nat
deriving DecidableEq

/-- One iterator step: yields the element under the cursor and the
iterator advanced by one, or none when the cursor is past the end. -/
def SliceIter.next {α : Type} (it : SliceIter α) : Option (α × SliceIter α) :=
  match it.elems.get? it.pos with
  | some x => some (x, ⟨it.elems, it.pos + 1⟩)
  | none => none

/-- Runs the iterator to exhaustion with explicit fuel, collecting the
yielded elements in order. -/
def SliceIter.collectFuel {α : Type} : Nat → SliceIter α → List α
  | 0, _ => []
  | n + 1, it =>
    match it.next with
    | some (x, it2) => x :: SliceIter.collectFuel n it2
    | none => []

/-- The full sequence an iterator yields from its current position. -/
def SliceIter.collect {α : Type} (it : SliceIter α) : List α :=
  SliceIter.collectFuel (it.elems.length - it.pos) it

/-- Models iter, which is as_slice followed by slice iter: a fresh
iterator over the slice with the cursor at 0, faulting exactly when
as_slice does. -/
def SecKeychainAttributeList.iterView (l : SecKeychainAttributeList)
    (rm : AttrMem) : Option (SliceIter SecKeychainAttribute) :=
  (l.as_slice rm).map fun xs => SliceIter.mk xs 0

/-- Helper: the byte view of a code built from 4 byte values is those
values reduced mod 256. -/
theorem as_bytes_fromBytes (b0 b1 b2 b3 : Nat) :
    (FourCharacterCode.fromBytes b0 b1 b2 b3).as_bytes =
      [b0 % 256, b1 % 256, b2 % 256, b3 % 256] := by
  simp only [FourCharacterCode.fromBytes, FourCharacterCode.as_bytes,
    List.cons.injEq, and_true]
  refine ⟨by omega, by omega, by omega, by omega⟩

/-- Helper: a sequence of ASCII bytes is valid UTF-8. -/
theorem validUtf8_ascii : ∀ bs : List Nat, (∀ b ∈ bs, b < 128) →
    validUtf8 bs = true := by
  intro bs
  induction bs with
  | nil => intro _; rfl
  | cons b rest ih =>
    intro h
    have hb : b < 128 := h b (List.mem_cons_self _ _)
    have ht : ∀ x ∈ rest, x < 128 := fun x hx => h x (List.mem_cons_of_mem _ hx)
    have hstep : validUtf8 (b :: rest) = validUtf8 rest := by
      simp [validUtf8, utf8Scan, hb]
    rw [hstep]
    exact ih ht

/-- Helper: codes with the same wrapped integer value are equal. -/
theorem fcc_val_inj (a b : FourCharacterCode) (h : a.val.val = b.val.val) :
    a = b := by
  obtain ⟨⟨av, ha⟩⟩ := a
  obtain ⟨⟨bv, hb⟩⟩ := b
  have h2 : av = bv := h
  subst h2
  rfl

/-- Helper: the byte view determines the code. -/
theorem as_bytes_inj (a b : FourCharacterCode)
    (h : a.as_bytes = b.as_bytes) : a = b := by
  apply fcc_val_inj
  have ha := a.val.isLt
  have hb := b.val.isLt
  simp only [FourCharacterCode.as_bytes, List.cons.injEq, and_true] at h
  omega

/-- Helper: a successful byte read returns exactly as many bytes as
requested. -/
theorem readBytes_length (m : Mem) : ∀ (n addr : Nat) (bs : List Nat),
    readBytes m addr n = some bs → bs.length = n := by
  intro n
  induction n with
  | zero =>
    intro addr bs h
    simp only [readBytes, Option.some.injEq] at h
    simp [← h]
  | succ k ih =>
    intro addr bs h
    rw [readBytes] at h
    rcases hm : m addr with _ | b <;> rw [hm] at h
    · simp at h
    · rcases hr : readBytes m (addr + 1) k with _ | rest <;> rw [hr] at h
      · simp at h
      · simp only [Option.some.injEq] at h
        subst h
        simp [ih _ _ hr]

/-- Helper: collecting with enough fuel from any position yields the
remaining elements in order. -/
theorem collectFuel_eq_drop {α : Type} :
    ∀ (fuel : Nat) (xs : List α) (pos : Nat), xs.length - pos ≤ fuel →
      SliceIter.collectFuel fuel ⟨xs, pos⟩ = xs.drop pos := by
  intro fuel
  induction fuel with
  | zero =>
    intro xs pos h
    have hlen : xs.length ≤ pos := by omega
    simp [SliceIter.collectFuel, List.drop_eq_nil_of_le hlen]
  | succ n ih =>
    intro xs pos h
    rw [SliceIter.collectFuel, SliceIter.next]
    rcases hx : xs.get? pos with _ | x
    · have hlen : xs.length ≤ pos := List.get?_eq_none.mp hx
      simp [List.drop_eq_nil_of_le hlen]
    · obtain ⟨hlt, hget⟩ := List.get?_eq_some.mp hx
      simp only
      have hdrop : xs.drop pos = x :: xs.drop (pos + 1) := by
        rw [List.drop_eq_getElem_cons hlt]
        simp only [List.cons.injEq, and_true]
        simpa using hget
      rw [hdrop, ih xs (pos + 1) (by omega)]

/-- C3: constructing a FourCharacterCode from a foreign string faults
(the assertion, modelled as none) if and only if the decoded byte
length is not exactly 4, in particular for lengths 3 and 5; when the
length is exactly 4 it succeeds and produces the same code as
fromBytes on those same 4 bytes. -/
theorem fromCFString_length_check (s : List Nat) :
    ((FourCharacterCode.fromCFString s).isSome ↔ s.length = 4) ∧
    (s.length ≠ 4 → FourCharacterCode.fromCFString s = none) ∧
    (∀ b0 b1 b2 b3 : Nat, s = [b0, b1, b2, b3] →
      FourCharacterCode.fromCFString s =
        some (FourCharacterCode.fromBytes b0 b1 b2 b3)) := by
  have h3 : ∀ b0 b1 b2 b3 : Nat, s = [b0, b1, b2, b3] →
      FourCharacterCode.fromCFString s =
        some (FourCharacterCode.fromBytes b0 b1 b2 b3) := by
    intro b0 b1 b2 b3 heq
    subst heq
    rfl
  refine ⟨?_, ?_, h3⟩ <;>
    rcases s with _ | ⟨a, _ | ⟨b, _ | ⟨c, _ | ⟨d, _ | ⟨e, t⟩⟩⟩⟩⟩ <;>
      simp [FourCharacterCode.fromCFString]

/-- C3 witness: the length check at decoded lengths 3, 4 and 5. -/
theorem fromCFString_length_check_witness :
    FourCharacterCode.fromCFString [1, 2, 3] = none ∧
    FourCharacterCode.fromCFString [1, 2, 3, 4, 5] = none ∧
    FourCharacterCode.fromCFString [1, 2, 3, 4] =
      some (FourCharacterCode.fromBytes 1 2 3 4) :=
  ⟨(fromCFString_length_check [1, 2, 3]).2.1 (by decide),
   (fromCFString_length_check [1, 2, 3, 4, 5]).2.1 (by decide),
   (fromCFString_length_check [1, 2, 3, 4]).2.2 1 2 3 4 rfl⟩

/-- C4 counterexample: the claim quantifies over every 4-byte array,
but for the bytes 255 255 255 255 (not valid UTF-8) as_str reaches the
unwrap panic and yields no string at all, so the round trip fails. -/
theorem fromBytes_as_str_roundtrip_cex :
    FourCharacterCode.as_str (FourCharacterCode.fromBytes 255 255 255 255) =
      none := by
  decide

/-- C4 (amended): for every 4-byte array whose bytes are ASCII (below
128), fromBytes followed by as_str yields a string of exactly 4 ASCII
characters equal to those bytes byte-for-byte, with no reordering. -/
theorem fromBytes_as_str_ascii_roundtrip (b0 b1 b2 b3 : Nat)
    (h0 : b0 < 128) (h1 : b1 < 128) (h2 : b2 < 128) (h3 : b3 < 128) :
    FourCharacterCode.as_str (FourCharacterCode.fromBytes b0 b1 b2 b3) =
      some [b0, b1, b2, b3] ∧
    ([b0, b1, b2, b3] : List Nat).length = 4 ∧
    (∀ b ∈ ([b0, b1, b2, b3] : List Nat), b < 128) := by
  have hmem : ∀ b ∈ ([b0, b1, b2, b3] : List Nat), b < 128 := by
    intro b hb
    simp only [List.mem_cons, List.not_mem_nil, or_false] at hb
    rcases hb with h | h | h | h <;> omega
  have hb : (FourCharacterCode.fromBytes b0 b1 b2 b3).as_bytes =
      [b0, b1, b2, b3] := by
    rw [as_bytes_fromBytes]
    simp only [List.cons.injEq, and_true]
    refine ⟨by omega, by omega, by omega, by omega⟩
  have hv : validUtf8 (FourCharacterCode.fromBytes b0 b1 b2 b3).as_bytes = true := by
    rw [hb]
    exact validUtf8_ascii _ hmem
  refine ⟨?_, rfl, hmem⟩
  rw [FourCharacterCode.as_str, hv, hb]
  simp

/-- C4 witness: the amended round trip at the ASCII bytes of abcd. -/
theorem fromBytes_as_str_ascii_roundtrip_witness :
    FourCharacterCode.as_str (FourCharacterCode.fromBytes 97 98 99 100) =
      some [97, 98, 99, 100] :=
  (fromBytes_as_str_ascii_roundtrip 97 98 99 100
    (by decide) (by decide) (by decide) (by decide)).1

/-- C5: fromU32 is total, and reinterpreting the resulting 4-byte view
back into a 32-bit integer through the same (little-endian) byte order
yields the original integer. -/
theorem fromU32_bytes_roundtrip (n : Nat) (h : n < 4294967296) :
    u32OfLEBytes (FourCharacterCode.fromU32 n).as_bytes = n := by
  simp only [FourCharacterCode.fromU32, FourCharacterCode.as_bytes, u32OfLEBytes]
  omega

/-- C5 witness: the integer round trip at 305419896 (0x12345678). -/
theorem fromU32_bytes_roundtrip_witness :
    u32OfLEBytes (FourCharacterCode.fromU32 305419896).as_bytes = 305419896 :=
  fromU32_bytes_roundtrip 305419896 (by decide)

/-- C7: equality, the derived total ordering and the hash of
FourCharacterCode are functions of the raw 4-byte pattern alone: two
codes are equal iff their byte views are equal, the hash input agrees
on equal byte views, and the derived ordering is total, antisymmetric
and transitive. -/
theorem eq_ord_hash_on_bytes (a b : FourCharacterCode) :
    (a = b ↔ a.as_bytes = b.as_bytes) ∧
    (a.as_bytes = b.as_bytes → a.hashData = b.hashData) ∧
    (FourCharacterCode.le a b ∨ FourCharacterCode.le b a) ∧
    (FourCharacterCode.le a b → FourCharacterCode.le b a → a = b) ∧
    (∀ c : FourCharacterCode, FourCharacterCode.le a b →
      FourCharacterCode.le b c → FourCharacterCode.le a c) := by
  refine ⟨⟨fun h => by rw [h], as_bytes_inj a b⟩,
    fun h => by rw [as_bytes_inj a b h], Nat.le_total _ _, ?_, ?_⟩
  · intro h1 h2
    exact fcc_val_inj a b (Nat.le_antisymm h1 h2)
  · intro c h1 h2
    exact Nat.le_trans h1 h2

/-- C7 witness: the byte-pattern characterisation at two concrete
codes. -/
theorem eq_ord_hash_on_bytes_witness :
    (FourCharacterCode.fromBytes 97 97 97 97 =
      FourCharacterCode.fromBytes 97 97 97 98 ↔
     (FourCharacterCode.fromBytes 97 97 97 97).as_bytes =
      (FourCharacterCode.fromBytes 97 97 97 98).as_bytes) ∧
    (FourCharacterCode.le (FourCharacterCode.fromBytes 97 97 97 97)
        (FourCharacterCode.fromBytes 97 97 97 98) ∨
     FourCharacterCode.le (FourCharacterCode.fromBytes 97 97 97 98)
        (FourCharacterCode.fromBytes 97 97 97 97)) :=
  ⟨(eq_ord_hash_on_bytes (FourCharacterCode.fromBytes 97 97 97 97)
      (FourCharacterCode.fromBytes 97 97 97 98)).1,
   (eq_ord_hash_on_bytes (FourCharacterCode.fromBytes 97 97 97 97)
      (FourCharacterCode.fromBytes 97 97 97 98)).2.2.1⟩

/-- C8: when the 4 bytes of a code are valid UTF-8, as_str does not
fault and returns the zero-copy view of exactly those 4 bytes; when
they are not valid UTF-8, as_str faults (the unwrap panic). -/
theorem as_str_utf8_precondition (c : FourCharacterCode) :
    (validUtf8 c.as_bytes = true →
      c.as_str = some c.as_bytes ∧ c.as_bytes.length = 4) ∧
    (validUtf8 c.as_bytes = false → c.as_str = none) := by
  constructor
  · intro h
    refine ⟨by simp [FourCharacterCode.as_str, h], by
      simp [FourCharacterCode.as_bytes]⟩
  · intro h
    simp [FourCharacterCode.as_str, h]

/-- C8 witness: the valid branch at the ASCII code abcd and the
faulting branch at the non-UTF-8 byte pattern 255 255 255 255. -/
theorem as_str_utf8_precondition_witness :
    (FourCharacterCode.fromBytes 97 98 99 100).as_str =
      some (FourCharacterCode.fromBytes 97 98 99 100).as_bytes ∧
    (FourCharacterCode.fromBytes 255 255 255 255).as_str = none :=
  ⟨((as_str_utf8_precondition (FourCharacterCode.fromBytes 97 98 99 100)).1
      (by decide)).1,
   (as_str_utf8_precondition (FourCharacterCode.fromBytes 255 255 255 255)).2
      (by decide)⟩

/-- C9: for the input bytes 0x41 0x42 0x43 0x44 (ABCD), fromBytes
produces a code whose as_str view is the UTF-8 content of ABCD, and
which equals the code built by fromU32 applied to its own wrapped
integer value. -/
theorem abcd_scenario :
    (FourCharacterCode.fromBytes 65 66 67 68).as_str =
      some (strUtf8 "ABCD") ∧
    FourCharacterCode.fromU32
        ((FourCharacterCode.fromBytes 65 66 67 68).val.val) =
      FourCharacterCode.fromBytes 65 66 67 68 ∧
    strUtf8 "ABCD" = [65, 66, 67, 68] := by
  decide

/-- C10: the Debug formatting goes through as_str: for a code whose 4
bytes are valid UTF-8 it produces FourCharacterCode( then the tag then
), and for a code whose bytes are not valid UTF-8 formatting itself
faults (the unwrap inside as_str is reached). -/
theorem debug_fmt_through_as_str (c : FourCharacterCode) :
    (validUtf8 c.as_bytes = true →
      c.fmtDebug =
        some (strUtf8 "FourCharacterCode(" ++ c.as_bytes ++ strUtf8 ")")) ∧
    (validUtf8 c.as_bytes = false → c.fmtDebug = none) := by
  constructor <;> intro h <;>
    simp [FourCharacterCode.fmtDebug, FourCharacterCode.as_str, h]

/-- C10 witness: Debug output at the ASCII code ABCD and the fault at
the non-UTF-8 byte pattern 255 255 255 255. -/
theorem debug_fmt_through_as_str_witness :
    (FourCharacterCode.fromBytes 65 66 67 68).fmtDebug =
      some (strUtf8 "FourCharacterCode(" ++
        (FourCharacterCode.fromBytes 65 66 67 68).as_bytes ++ strUtf8 ")") ∧
    (FourCharacterCode.fromBytes 255 255 255 255).fmtDebug = none :=
  ⟨(debug_fmt_through_as_str (FourCharacterCode.fromBytes 65 66 67 68)).1
      (by decide),
   (debug_fmt_through_as_str (FourCharacterCode.fromBytes 255 255 255 255)).2
      (by decide)⟩

/-- C1: the data accessor yields None exactly when the data pointer is
the null marker, in any memory state (so no dereference is attempted
and the null marker is trusted over a non-zero length); when the
pointer is non-null it yields Some of a slice of exactly length bytes
at that address, so a non-null pointer with length 0 yields Some of
the empty slice, observably distinct from None. -/
theorem getData_null_iff (m : Mem) (a : SecKeychainAttribute) :
    (a.getData m = some none ↔ a.data = 0) ∧
    (a.data ≠ 0 → ∀ bs : List Nat,
      readBytes m a.data a.length = some bs →
        a.getData m = some (some bs) ∧ bs.length = a.length) ∧
    (a.data ≠ 0 → a.length = 0 →
      a.getData m = some (some []) ∧ (some ([] : List Nat)) ≠ none) := by
  refine ⟨⟨?_, ?_⟩, ?_, ?_⟩
  · intro h
    by_contra hne
    simp only [SecKeychainAttribute.getData, if_neg hne] at h
    rcases hr : readBytes m a.data a.length with _ | bs <;> rw [hr] at h <;>
      simp at h
  · intro h
    simp [SecKeychainAttribute.getData, h]
  · intro h bs hr
    exact ⟨by simp [SecKeychainAttribute.getData, h, hr],
      readBytes_length m a.length a.data bs hr⟩
  · intro h h0
    refine ⟨?_, by simp⟩
    simp [SecKeychainAttribute.getData, h, h0, readBytes]

/-- C1 witness: a record with null pointer and non-zero length yields
None under totally unmapped memory (no dereference), and a record with
non-null pointer and length 3 yields Some of the 3 bytes there. -/
theorem getData_null_iff_witness :
    SecKeychainAttribute.getData
        ⟨FourCharacterCode.fromBytes 97 97 97 97, 5, 0⟩ (fun _ => none) =
      some none ∧
    SecKeychainAttribute.getData
        ⟨FourCharacterCode.fromBytes 98 98 98 98, 3, 20⟩
        (fun n => if n = 20 then some 1 else if n = 21 then some 2
          else if n = 22 then some 3 else none) =
      some (some [1, 2, 3]) :=
  ⟨(getData_null_iff (fun _ => none)
      ⟨FourCharacterCode.fromBytes 97 97 97 97, 5, 0⟩).1.mpr rfl,
   ((getData_null_iff
      (fun n => if n = 20 then some 1 else if n = 21 then some 2
        else if n = 22 then some 3 else none)
      ⟨FourCharacterCode.fromBytes 98 98 98 98, 3, 20⟩).2.1
      (by decide) [1, 2, 3] (by decide)).1⟩

/-- C2: an attribute list whose count field is 0 yields from as_slice
and from iter an empty, non-faulting sequence, for every base address
(null or non-null) and every memory state. -/
theorem count_zero_empty (rm : AttrMem) (l : SecKeychainAttributeList)
    (h : l.count = 0) :
    l.as_slice rm = some [] ∧
    l.iterView rm = some (SliceIter.mk [] 0) ∧
    SliceIter.collect (SliceIter.mk ([] : List SecKeychainAttribute) 0) = [] := by
  have hs : l.as_slice rm = some [] := by
    simp [SecKeychainAttributeList.as_slice, h, readAttrs]
  exact ⟨hs, by simp [SecKeychainAttributeList.iterView, hs], rfl⟩

/-- C2 witness: a zero-count list with a non-null base address over
totally unmapped memory still yields the empty sequence. -/
theorem count_zero_empty_witness :
    SecKeychainAttributeList.as_slice ⟨0, 7⟩ (fun _ => none) = some [] ∧
    SecKeychainAttributeList.iterView ⟨0, 7⟩ (fun _ => none) =
      some (SliceIter.mk [] 0) :=
  ⟨(count_zero_empty (fun _ => none) ⟨0, 7⟩ rfl).1,
   (count_zero_empty (fun _ => none) ⟨0, 7⟩ rfl).2.1⟩

/-- C6: iter is as_slice followed by a fresh slice iterator: whenever
as_slice yields a slice, iter yields the iterator over exactly that
slice with the cursor at 0, running that iterator to exhaustion yields
exactly the slice in order, and any iterator obtained from a second
call of iter yields the identical sequence again (the iterator state
is only the elements plus a position cursor). -/
theorem iter_as_slice_equiv (rm : AttrMem) (l : SecKeychainAttributeList)
    (xs : List SecKeychainAttribute) (h : l.as_slice rm = some xs) :
    l.iterView rm = some (SliceIter.mk xs 0) ∧
    SliceIter.collect (SliceIter.mk xs 0) = xs ∧
    (∀ it2 : SliceIter SecKeychainAttribute, l.iterView rm = some it2 →
      SliceIter.collect it2 = xs) := by
  have hit : l.iterView rm = some (SliceIter.mk xs 0) := by
    simp [SecKeychainAttributeList.iterView, h]
  have hcol : SliceIter.collect (SliceIter.mk xs 0) = xs := by
    rw [SliceIter.collect]
    simpa using collectFuel_eq_drop (xs.length - 0) xs 0 (by omega)
  refine ⟨hit, hcol, ?_⟩
  intro it2 h2
  rw [hit] at h2
  injection h2 with h3
  subst h3
  exact hcol

/-- C6 witness: the spec scenario, a list of two records, the first
with tag aaaa, length 0 and null data, the second with tag bbbb,
length 3 and a data pointer to the bytes 1 2 3; iterating yields
exactly those two records in order. -/
theorem iter_as_slice_equiv_witness :
    SecKeychainAttributeList.iterView ⟨2, 10⟩
      (fun n => if n = 10
        then some ⟨FourCharacterCode.fromBytes 97 97 97 97, 0, 0⟩
        else if n = 11
        then some ⟨FourCharacterCode.fromBytes 98 98 98 98, 3, 20⟩
        else none) =
      some (SliceIter.mk
        [⟨FourCharacterCode.fromBytes 97 97 97 97, 0, 0⟩,
         ⟨FourCharacterCode.fromBytes 98 98 98 98, 3, 20⟩] 0) ∧
    SliceIter.collect (SliceIter.mk
        ([⟨FourCharacterCode.fromBytes 97 97 97 97, 0, 0⟩,
          ⟨FourCharacterCode.fromBytes 98 98 98 98, 3, 20⟩] :
          List SecKeychainAttribute) 0) =
      ([⟨FourCharacterCode.fromBytes 97 97 97 97, 0, 0⟩,
        ⟨FourCharacterCode.fromBytes 98 98 98 98, 3, 20⟩] :
        List SecKeychainAttribute) :=
  ⟨(iter_as_slice_equiv
      (fun n => if n = 10
        then some ⟨FourCharacterCode.fromBytes 97 97 97 97, 0, 0⟩
        else if n = 11
        then some ⟨FourCharacterCode.fromBytes 98 98 98 98, 3, 20⟩
        else none) ⟨2, 10⟩
      ([⟨FourCharacterCode.fromBytes 97 97 97 97, 0, 0⟩,
        ⟨FourCharacterCode.fromBytes 98 98 98 98, 3, 20⟩] :
        List SecKeychainAttribute) (by decide)).1,
   (iter_as_slice_equiv
      (fun n => if n = 10
        then some ⟨FourCharacterCode.fromBytes 97 97 97 97, 0, 0⟩
        else if n = 11
        then some ⟨FourCharacterCode.fromBytes 98 98 98 98, 3, 20⟩
        else none) ⟨2, 10⟩
      ([⟨FourCharacterCode.fromBytes 97 97 97 97, 0, 0⟩,
        ⟨FourCharacterCode.fromBytes 98 98 98 98, 3, 20⟩] :
        List SecKeychainAttribute) (by decide)).2.1⟩

end KeychainFFI
